import Mathlib

/-!
Shallow embedding of the filter / merge core of the WSP_automationexcel
repository (src/models.py, src/utils.py, src/proxies.py).

Python strings are modelled as lists of Unicode code points (`PyStr`),
finite Python floats as rationals (`Rat`), the float NaN as its own cell
kind `Value.nan` (float(nan) succeeds and obeys the IEEE comparison
rules), Python None cells as the non-coercible `Value.null`, and dates as
their proleptic ordinals (`Nat`, always at least 1 for a real
datetime.date).
-/

/-- Python strings are modelled as lists of code points. -/
abbrev PyStr := List Nat

/-- Encoding of a Lean string literal as a list of code points. -/
def enc (s : String) : PyStr := s.data.map Char.toNat

/-- Whitespace test on a code point, as used by Python str.strip(). -/
def isSpaceCode (c : Nat) : Bool :=
  c == 32 || c == 9 || c == 10 || c == 13 || c == 11 || c == 12

/-- ASCII lower-casing of one code point (model of str.lower()). -/
def lowerCode (c : Nat) : Nat :=
  if 65 ≤ c ∧ c ≤ 90 then c + 32 else c

/-- Model of Python str.lower(). -/
def pyLower (s : PyStr) : PyStr := s.map lowerCode

/-- Removal of leading whitespace (left part of str.strip()). -/
def stripL (s : PyStr) : PyStr := s.dropWhile isSpaceCode

/-- Removal of trailing whitespace (right part of str.strip()). -/
def stripR (s : PyStr) : PyStr := (stripL s.reverse).reverse

/-- Model of Python str.strip(). -/
def pyStrip (s : PyStr) : PyStr := stripR (stripL s)

/-- Boolean test that the first list starts the second. -/
def pyStartsWith : PyStr → PyStr → Bool
  | [], _ => true
  | _ :: _, [] => false
  | a :: as, b :: bs => a == b && pyStartsWith as bs

/-- Model of the Python substring test (needle in haystack). -/
def pyContainsSub (needle : PyStr) : PyStr → Bool
  | [] => needle.isEmpty
  | x :: rest => pyStartsWith needle (x :: rest) || pyContainsSub needle rest

/-- Worker for str.replace(pat, "") with explicit fuel (the fuel never
runs out when it starts at the length of the string). -/
def replaceAllAux (pat : PyStr) : Nat → PyStr → PyStr
  | 0, s => s
  | _ + 1, [] => []
  | fuel + 1, x :: rest =>
    if pat ≠ [] ∧ pyStartsWith pat (x :: rest) then
      replaceAllAux pat fuel ((x :: rest).drop pat.length)
    else
      x :: replaceAllAux pat fuel rest

/-- Model of Python str.replace(pat, "") removing occurrences left to right. -/
def replaceAll (pat : PyStr) (s : PyStr) : PyStr := replaceAllAux pat s.length s

/-- Decimal digits of a natural number, least significant first, by fuel. -/
def natDigitsAux : Nat → Nat → List Nat
  | 0, _ => []
  | fuel + 1, n => if n = 0 then [] else n % 10 :: natDigitsAux fuel (n / 10)

/-- Wrapper choosing enough fuel for the digit extraction. -/
def natDigits (n : Nat) : List Nat := natDigitsAux n n

/-- Value of a least-significant-first decimal digit list. -/
def digitsVal : List Nat → Nat
  | [] => 0
  | d :: ds => d + 10 * digitsVal ds

/-- Decimal rendering of a natural number as code points. -/
def natEnc (n : Nat) : PyStr :=
  if n = 0 then [48] else ((natDigits n).map (· + 48)).reverse

/-- Decimal rendering of an integer as code points. -/
def intEnc (i : Int) : PyStr :=
  if i < 0 then 45 :: natEnc i.natAbs else natEnc i.natAbs

/-- Model of datetime.date.isoformat on the ordinal of a date. -/
def isoformat (d : Nat) : PyStr := ((natDigits d).map (· + 48)).reverse

/-- Model of datetime.date.fromisoformat back to the ordinal. -/
def fromisoformat (s : PyStr) : Nat := digitsVal ((s.map (· - 48)).reverse)

/-- Result of a successful Python float() coercion: a finite value or the
IEEE NaN. -/
inductive PyFloat where
  | fin (q : ℚ)
  | nan
deriving DecidableEq

/-- Cell values of the table model.  A cell whose float() coercion gives a
finite number is `num`; a float NaN cell is `nan`; a text cell that
pd.to_datetime parses is represented as `date` (carrying the ordinal of
the parsed date); a None cell is `null`; other text cells are `str`. -/
inductive Value where
  | num (q : ℚ)
  | nan
  | str (s : PyStr)
  | date (d : Nat)
  | null
deriving DecidableEq

/-- Model of Python float() on a cell: finite numeric cells give their
value, a NaN cell coerces to the NaN float (float(nan) succeeds),
everything else raises TypeError / ValueError (modelled as none). -/
def pyFloat : Value → Option PyFloat
  | .num q => some (.fin q)
  | .nan => some .nan
  | _ => none

/-- IEEE greater-or-equal of a float cell against the finite threshold:
false whenever the cell is NaN. -/
def pyFloatGe : PyFloat → ℚ → Bool
  | .fin x, y => decide (x ≥ y)
  | .nan, _ => false

/-- IEEE less-or-equal against the finite threshold; false on NaN. -/
def pyFloatLe : PyFloat → ℚ → Bool
  | .fin x, y => decide (x ≤ y)
  | .nan, _ => false

/-- IEEE equality against the finite threshold; false on NaN. -/
def pyFloatEq : PyFloat → ℚ → Bool
  | .fin x, y => decide (x = y)
  | .nan, _ => false

/-- IEEE strictly-greater against the finite threshold; false on NaN. -/
def pyFloatGt : PyFloat → ℚ → Bool
  | .fin x, y => decide (x > y)
  | .nan, _ => false

/-- IEEE strictly-less against the finite threshold; false on NaN. -/
def pyFloatLt : PyFloat → ℚ → Bool
  | .fin x, y => decide (x < y)
  | .nan, _ => false

/-- IEEE inequality against the finite threshold; TRUE on NaN (nan != v
holds in Python). -/
def pyFloatNe : PyFloat → ℚ → Bool
  | .fin x, y => decide (x ≠ y)
  | .nan, _ => true

/-- Model of the date parsing at the top of DateFilter.matches: date-typed
cells (and the text cells pd.to_datetime parses, represented by the date
constructor) give their ordinal; a numeric cell is read by pd.to_datetime
as a count of nanoseconds since the 1970-01-01 epoch (ordinal 719163)
within the int64 Timestamp range, and .date() floors it to a day (the
floor of num/(den*ns_per_day) is taken with integer floor division); a
number outside that range raises OutOfBoundsDatetime (modelled as none);
None and NaN cells give NaT rather than a date and are modelled as never
matching. -/
def pyToDate : Value → Option Nat
  | .date d => some d
  | .num q =>
      if -9223372036854775807 ≤ q ∧ q ≤ 9223372036854775807 then
        some (719163 + Int.fdiv q.num (q.den * 86400000000000)).toNat
      else none
  | _ => none

/-- Model of Python str() on a cell; the exact rendering of numbers and
dates is a canonical simplification (no claim depends on it). -/
def pyStr : Value → PyStr
  | .num q => intEnc q.num ++ (if q.den = 1 then [] else 47 :: natEnc q.den)
  | .nan => enc "nan"
  | .str s => s
  | .date d => isoformat d
  | .null => enc "None"

/-- Operator strings accepted by NumericFilter (models.py NumericFilter.OPERATORS). -/
def OPERATORS : List String := [">=", "<=", "==", ">", "<", "!="]

/-- Numeric threshold filter (models.py NumericFilter). -/
structure NumericFilter where
  column : PyStr
  operator : String
  value : ℚ
deriving DecidableEq

/-- Text contains filter (models.py TextFilter); the fields hold the
already-normalised state produced by the constructor. -/
structure TextFilter where
  column : PyStr
  tokens : List PyStr
  case_sensitive : Bool
deriving DecidableEq

/-- Date range filter (models.py DateFilter); dates are ordinals. -/
structure DateFilter where
  column : PyStr
  start_date : Option Nat
  end_date : Option Nat
deriving DecidableEq

/-- Model of the TextFilter constructor: tokens are stripped, empty ones
dropped, and lower-cased when the filter is case-insensitive. -/
def TextFilter.make (column : PyStr) (tokens : List PyStr) (case_sensitive : Bool) : TextFilter :=
  let ts := ((tokens.map pyStrip).filter (fun t => t ≠ []))
  { column := column
    tokens := if case_sensitive then ts else ts.map pyLower
    case_sensitive := case_sensitive }

/-- Model of NumericFilter.matches: coerce with float(), then compare
with the IEEE float rules (a NaN cell fails every operator except !=). -/
def NumericFilter.matches (f : NumericFilter) (v : Value) : Bool :=
  match pyFloat v with
  | none => false
  | some x =>
    if f.operator == ">=" then pyFloatGe x f.value
    else if f.operator == "<=" then pyFloatLe x f.value
    else if f.operator == "==" then pyFloatEq x f.value
    else if f.operator == ">" then pyFloatGt x f.value
    else if f.operator == "<" then pyFloatLt x f.value
    else if f.operator == "!=" then pyFloatNe x f.value
    else false

/-- Model of TextFilter.matches. -/
def TextFilter.matches (f : TextFilter) (v : Value) : Bool :=
  if f.tokens.isEmpty then false
  else
    let text := pyStr v
    let text := if f.case_sensitive then text else pyLower text
    f.tokens.any (fun t => pyContainsSub t text)

/-- Model of DateFilter.matches.  Python date objects are always truthy,
so the truthiness tests on start_date / end_date are Option matches. -/
def DateFilter.matches (f : DateFilter) (v : Value) : Bool :=
  match pyToDate v with
  | none => false
  | some d =>
    if (match f.start_date with | some sd => decide (d < sd) | none => false) then false
    else if (match f.end_date with | some ed => decide (ed < d) | none => false) then false
    else true

/-- Sum of the three filter rule variants (base class FilterRule). -/
inductive FilterRule where
  | num (f : NumericFilter)
  | text (f : TextFilter)
  | date (f : DateFilter)
deriving DecidableEq

/-- Column of a rule (FilterRule.column attribute). -/
def FilterRule.column : FilterRule → PyStr
  | .num f => f.column
  | .text f => f.column
  | .date f => f.column

/-- Dynamic dispatch of matches over the variants. -/
def FilterRule.matches : FilterRule → Value → Bool
  | .num f, v => f.matches v
  | .text f, v => f.matches v
  | .date f, v => f.matches v

/-- Structural equality of rules, the models.py eq methods: NumericFilter
and DateFilter compare fields, TextFilter compares its token SET. -/
def ruleEq : FilterRule → FilterRule → Bool
  | .num a, .num b => a.column == b.column && a.operator == b.operator && a.value == b.value
  | .text a, .text b =>
      a.column == b.column
        && (a.tokens.all (fun t => t ∈ b.tokens) && b.tokens.all (fun t => t ∈ a.tokens))
        && a.case_sensitive == b.case_sensitive
  | .date a, .date b => a.column == b.column && a.start_date == b.start_date && a.end_date == b.end_date
  | _, _ => false

/-- Serialised form of a NumericFilter (to_dict payload). -/
structure NumericDict where
  column : PyStr
  operator : String
  value : ℚ

/-- Serialised form of a TextFilter. -/
structure TextDict where
  column : PyStr
  tokens : List PyStr
  case_sensitive : Bool

/-- Serialised form of a DateFilter; absent bounds serialise to None,
present ones to their isoformat string. -/
structure DateDict where
  column : PyStr
  start_date : Option PyStr
  end_date : Option PyStr

/-- Model of NumericFilter.to_dict. -/
def NumericFilter.to_dict (f : NumericFilter) : NumericDict :=
  { column := f.column, operator := f.operator, value := f.value }

/-- Model of NumericFilter.from_dict. -/
def NumericFilter.from_dict (d : NumericDict) : NumericFilter :=
  { column := d.column, operator := d.operator, value := d.value }

/-- Model of TextFilter.to_dict. -/
def TextFilter.to_dict (f : TextFilter) : TextDict :=
  { column := f.column, tokens := f.tokens, case_sensitive := f.case_sensitive }

/-- Model of TextFilter.from_dict: runs the constructor again. -/
def TextFilter.from_dict (d : TextDict) : TextFilter :=
  TextFilter.make d.column d.tokens d.case_sensitive

/-- Model of DateFilter.to_dict. -/
def DateFilter.to_dict (f : DateFilter) : DateDict :=
  { column := f.column
    start_date := f.start_date.map isoformat
    end_date := f.end_date.map isoformat }

/-- Model of DateFilter.from_dict; data.get(...) is tested for truthiness,
so an empty string behaves like an absent bound. -/
def DateFilter.from_dict (d : DateDict) : DateFilter :=
  { column := d.column
    start_date := match d.start_date with
      | some s => if s = [] then none else some (fromisoformat s)
      | none => none
    end_date := match d.end_date with
      | some s => if s = [] then none else some (fromisoformat s)
      | none => none }

/-- Manager of active filters (models.py FilterManager); the dict from
column name to rule list is an association list with distinct keys, in
insertion order.  Observers have no effect on the filter state and are
omitted. -/
structure FilterManager where
  filters : List (PyStr × List FilterRule)
deriving DecidableEq

/-- Removal of the first list element equal (under the Python eq) to the
given rule, as list.remove does. -/
def removeFirst (r : FilterRule) : List FilterRule → List FilterRule
  | [] => []
  | x :: xs => if ruleEq x r then xs else x :: removeFirst r xs

/-- Model of FilterManager.add_filter: ensure the bucket for the rule's
column exists (a fresh bucket is appended at the end, dict insertion
order), then append the rule unless an equal one is already present. -/
def FilterManager.add_filter (fm : FilterManager) (r : FilterRule) : FilterManager :=
  let col := r.column
  let fs := if fm.filters.any (fun p => p.1 == col) then fm.filters
            else fm.filters ++ [(col, [])]
  ⟨fs.map (fun p =>
    if p.1 == col then
      (p.1, if p.2.any (fun x => ruleEq x r) then p.2 else p.2 ++ [r])
    else p)⟩

/-- Model of FilterManager.remove_filter: when the rule's column has a
bucket containing an equal rule, remove the first such rule and delete the
bucket when it becomes empty. -/
def FilterManager.remove_filter (fm : FilterManager) (r : FilterRule) : FilterManager :=
  ⟨fm.filters.filterMap (fun p =>
    if p.1 == r.column then
      if p.2.any (fun x => ruleEq x r) then
        if (removeFirst r p.2).isEmpty then none else some (p.1, removeFirst r p.2)
      else some p
    else some p)⟩

/-- Model of FilterManager.clear_column_filters. -/
def FilterManager.clear_column_filters (fm : FilterManager) (column : PyStr) : FilterManager :=
  ⟨fm.filters.filter (fun p => !(p.1 == column))⟩

/-- Model of FilterManager.clear_all. -/
def FilterManager.clear_all (_fm : FilterManager) : FilterManager := ⟨[]⟩

/-- Model of FilterManager.get_filters_for_column. -/
def FilterManager.get_filters_for_column (fm : FilterManager) (column : PyStr) : List FilterRule :=
  (fm.filters.lookup column).getD []

/-- Model of FilterManager.get_all_filters (flattening loop). -/
def FilterManager.get_all_filters (fm : FilterManager) : List FilterRule :=
  fm.filters.foldl (fun acc p => acc ++ p.2) []

/-- Model of FilterManager.has_filters. -/
def FilterManager.has_filters (fm : FilterManager) : Bool :=
  !fm.filters.isEmpty

/-- Rows handed to the matchers are pd.Series, modelled as association
lists from column label to cell value (distinct labels). -/
abbrev Row := List (PyStr × Value)

/-- Inner loop of matches_all_filters over one column's rules, with the
early False exit. -/
def matchesColumnRules (rules : List FilterRule) (v : Value) : Bool :=
  match rules with
  | [] => true
  | r :: rest => if !(r.matches v) then false else matchesColumnRules rest v

/-- Outer loop of matches_all_filters over the filters dict. -/
def matchesAllAux (row : Row) : List (PyStr × List FilterRule) → Bool
  | [] => true
  | (c, rules) :: rest =>
    match row.lookup c with
    | none => false
    | some v => if !(matchesColumnRules rules v) then false else matchesAllAux row rest

/-- Model of FilterManager.matches_all_filters. -/
def FilterManager.matches_all_filters (fm : FilterManager) (row : Row) : Bool :=
  if fm.filters.isEmpty then true
  else matchesAllAux row fm.filters

/-- Model of FilterManager.matches_any_filter. -/
def FilterManager.matches_any_filter (fm : FilterManager) (row : Row) : Bool :=
  fm.filters.any (fun p =>
    match row.lookup p.1 with
    | none => false
    | some v => p.2.any (fun r => r.matches v))

/-- Tables (pandas DataFrames): an ordered list of column labels and rows
of cells positioned under those labels. -/
structure DataFrame where
  columns : List PyStr
  rows : List (List Value)
deriving DecidableEq

/-- Name of the timestamp column (utils.py DATE_COL_NAME). -/
def DATE_COL_NAME : PyStr := enc "Date Added"

/-- Cell of a positional row under a source column list, by label; absent
labels give the missing value (pandas alignment fills NaN). -/
def lookupVal (cols : List PyStr) (r : List Value) (c : PyStr) : Value :=
  ((cols.zip r).lookup c).getD Value.null

/-- Reindexing of one row from a source column list to a target column
list, by label. -/
def reindexRow (cols : List PyStr) (r : List Value) (tgt : List PyStr) : List Value :=
  tgt.map (lookupVal cols r)

/-- Model of column selection df[cols]: raises KeyError (none) when some
requested label is absent. -/
def selectCols (df : DataFrame) (cols : List PyStr) : Option DataFrame :=
  if cols.all (fun c => c ∈ df.columns) then
    some ⟨cols, df.rows.map (fun r => reindexRow df.columns r cols)⟩
  else none

/-- Model of pd.concat(ignore_index=True) on two frames: the column union
keeps the first frame's order, and both frames' rows are aligned to it. -/
def concatFrames (a b : DataFrame) : DataFrame :=
  let cols := a.columns ++ b.columns.filter (fun c => c ∉ a.columns)
  ⟨cols, a.rows.map (fun r => reindexRow a.columns r cols)
          ++ b.rows.map (fun r => reindexRow b.columns r cols)⟩

/-- Model of drop_duplicates(keep="last") under a key function: a row is
kept when no later row has an equal key. -/
def dedupLast (k : List Value → List Value) : List (List Value) → List (List Value)
  | [] => []
  | x :: rest =>
    if rest.any (fun y => k y == k x) then dedupLast k rest
    else x :: dedupLast k rest

/-- Equality of the two column sets, as Python set(a) == set(b). -/
def sameColumnSet (a b : List PyStr) : Bool :=
  a.all (fun c => c ∈ b) && b.all (fun c => c ∈ a)

/-- Comma-space join of names, modelling ", ".join(...). -/
def joinComma : List PyStr → PyStr
  | [] => []
  | [x] => x
  | x :: y :: rest => x ++ enc ", " ++ joinComma (y :: rest)

/-- Model of utils.merge_dataframes.  The missing / extra name sets are
listed in first-occurrence order (a deterministic model of Python set
iteration).  The none result models the KeyError raised by the column
selection new_df[existing_base + [DATE_COL_NAME]] when the incoming frame
has no timestamp column. -/
def merge_dataframes (existing_df new_df : DataFrame) :
    Option (DataFrame × Bool × PyStr) :=
  let existing_base := existing_df.columns.filter (fun c => c ≠ DATE_COL_NAME)
  let new_base := new_df.columns.filter (fun c => c ≠ DATE_COL_NAME)
  if !(sameColumnSet existing_base new_base) then
    let missing_in_new := existing_base.filter (fun c => c ∉ new_base)
    let extra_in_new := new_base.filter (fun c => c ∉ existing_base)
    let msg := enc "Column mismatch:\n"
      ++ (if !missing_in_new.isEmpty then enc "Missing: " ++ joinComma missing_in_new ++ enc "\n" else [])
      ++ (if !extra_in_new.isEmpty then enc "Extra: " ++ joinComma extra_in_new ++ enc "\n" else [])
    some (existing_df, false, msg)
  else
    match selectCols new_df (existing_base ++ [DATE_COL_NAME]) with
    | none => none
    | some new_sel =>
      let merged := concatFrames existing_df new_sel
      let deduped : DataFrame :=
        ⟨merged.columns, dedupLast (fun r => reindexRow merged.columns r existing_base) merged.rows⟩
      some (deduped, true, enc "Successfully merged")

/-- Source model behind the proxy: a DataFrameModel (models.py) with its
table, its FilterManager and an optional per-row highlight mask. -/
structure SourceModel where
  df : DataFrame
  fm : FilterManager
  highlight_mask : Option (List Bool)

/-- Model of QAbstractTableModel.columnCount. -/
def SourceModel.columnCount (m : SourceModel) : Nat := m.df.columns.length

/-- Label of a column by position (empty for an out-of-range section). -/
def SourceModel.columnName (m : SourceModel) (i : Nat) : PyStr :=
  m.df.columns.getD i []

/-- Filter indicator put in front of displayed headers. -/
def FILTER_MARK : PyStr := enc "[F] "

/-- Model of DataFrameModel.headerData for DisplayRole: filtered columns
are shown with the indicator in front. -/
def SourceModel.headerData (m : SourceModel) (i : Nat) : PyStr :=
  if i < m.columnCount then
    let n := m.columnName i
    if !(m.fm.get_filters_for_column n).isEmpty then FILTER_MARK ++ n else n
  else []

/-- Model of DataFrameModel.get_raw_value; out-of-range access raises and
is caught, giving None (null). -/
def SourceModel.get_raw_value (m : SourceModel) (row col : Nat) : Value :=
  match m.df.rows[row]? with
  | some r => r.getD col Value.null
  | none => Value.null

/-- Model of DataFrameModel.data for DisplayRole (missing cells show as
the empty string; invalid indices give a falsy QVariant, modelled as the
empty string). -/
def SourceModel.dataDisplay (m : SourceModel) (row col : Nat) : PyStr :=
  if row < m.df.rows.length ∧ col < m.df.columns.length then
    match m.get_raw_value row col with
    | Value.null => []
    | Value.nan => []
    | v => pyStr v
  else []

/-- Row of the table as the pd.Series handed to the filter manager. -/
def SourceModel.rowAssoc (m : SourceModel) (row : Nat) : Row :=
  m.df.columns.zip (m.df.rows.getD row [])

/-- Model of DataFrameModel.is_row_highlighted. -/
def SourceModel.is_row_highlighted (m : SourceModel) (row : Nat) : Bool :=
  if (m.df.rows.isEmpty || !m.fm.has_filters) && m.highlight_mask.isNone then false
  else
    match m.highlight_mask with
    | some mask =>
      if row < mask.length then mask.getD row false
      else if row < m.df.rows.length then m.fm.matches_all_filters (m.rowAssoc row)
      else false
    | none =>
      if row < m.df.rows.length then m.fm.matches_all_filters (m.rowAssoc row)
      else false

/-- State of a SmartSearchProxy (proxies.py); mode strings are compared
only for equality and stay Lean strings. -/
structure SmartSearchProxy where
  search_text : PyStr
  search_column : Option PyStr
  filter_mode : String
  extra_filters : List FilterRule
  extra_filter_mode : String

/-- Model of SmartSearchProxy._get_column_index: the first column whose
displayed header, with every "[F] " occurrence removed, equals the wanted
name. -/
def get_column_index (m : SourceModel) (column_name : PyStr) : Option Nat :=
  (List.range m.columnCount).find? (fun c =>
    replaceAll FILTER_MARK (m.headerData c) == column_name)

/-- Search stage of filterAcceptsRow (stage 1). -/
def searchAccepts (p : SmartSearchProxy) (m : SourceModel) (row : Nat) : Bool :=
  if p.search_text.isEmpty then true
  else
    match p.search_column with
    | none =>
      (List.range m.columnCount).any (fun c =>
        let v := m.dataDisplay row c
        !v.isEmpty && pyContainsSub (pyLower p.search_text) (pyLower v))
    | some colName =>
      match get_column_index m colName with
      | some c =>
        let v := m.dataDisplay row c
        !v.isEmpty && pyContainsSub (pyLower p.search_text) (pyLower v)
      | none => false

/-- Highlight stage of filterAcceptsRow (stage 2). -/
def highlightAccepts (p : SmartSearchProxy) (m : SourceModel) (row : Nat) : Bool :=
  if !(p.filter_mode == "all") && m.fm.has_filters then
    if p.filter_mode == "highlighted" then m.is_row_highlighted row
    else if p.filter_mode == "unhighlighted" then !(m.is_row_highlighted row)
    else true
  else true

/-- Extra per-tab filter stage of filterAcceptsRow (stage 3): OR mode
skips rules with a falsy column name or an absent column, AND mode skips
falsy column names but fails the row on an absent column. -/
def extraAccepts (p : SmartSearchProxy) (m : SourceModel) (row : Nat) : Bool :=
  if p.extra_filters.isEmpty then true
  else if p.extra_filter_mode == "any" then
    p.extra_filters.any (fun f =>
      !f.column.isEmpty &&
        match get_column_index m f.column with
        | none => false
        | some c => f.matches (m.get_raw_value row c))
  else
    p.extra_filters.all (fun f =>
      f.column.isEmpty ||
        match get_column_index m f.column with
        | none => false
        | some c => f.matches (m.get_raw_value row c))

/-- Model of SmartSearchProxy.filterAcceptsRow: the three stages with
early False returns compose by conjunction. -/
def filterAcceptsRow (p : SmartSearchProxy) (m : SourceModel) (row : Nat) : Bool :=
  searchAccepts p m row && highlightAccepts p m row && extraAccepts p m row

/-- Invariant claimed for the FilterManager dict: every bucket that is
present is nonempty. -/
def FMInv (fm : FilterManager) : Prop :=
  ∀ p ∈ fm.filters, p.2 ≠ []

/-- Modelled from the spec wording of claim C1 (OR within a column): a row
passes when no filters are active, or every filtered column is present in
the row and its cell matches AT LEAST ONE of that column's rules. -/
def specMatchesAllOrWithin (fm : FilterManager) (row : Row) : Bool :=
  if fm.filters.isEmpty then true
  else fm.filters.all (fun p =>
    match row.lookup p.1 with
    | none => false
    | some v => p.2.any (fun r => r.matches v))

/-- Mathematical denotation of the six comparison operator strings. -/
def opDenotes (op : String) (x y : ℚ) : Prop :=
  if op = ">=" then x ≥ y
  else if op = "<=" then x ≤ y
  else if op = "==" then x = y
  else if op = ">" then x > y
  else if op = "<" then x < y
  else if op = "!=" then x ≠ y
  else False

/-- Lower-casing a code point twice is the same as once. -/
theorem lowerCode_idem (c : Nat) : lowerCode (lowerCode c) = lowerCode c := by
  unfold lowerCode
  by_cases h : 65 ≤ c ∧ c ≤ 90
  · rw [if_pos h, if_neg (by omega)]
  · rw [if_neg h, if_neg h]

/-- Lower-casing never changes whether a code point is whitespace. -/
theorem isSpace_lower (c : Nat) : isSpaceCode (lowerCode c) = isSpaceCode c := by
  unfold lowerCode
  by_cases h : 65 ≤ c ∧ c ≤ 90
  · rw [if_pos h]
    have h1 : isSpaceCode (c + 32) = false := by
      simp only [isSpaceCode, Bool.or_eq_false_iff, beq_eq_false_iff_ne, ne_eq]
      omega
    have h2 : isSpaceCode c = false := by
      simp only [isSpaceCode, Bool.or_eq_false_iff, beq_eq_false_iff_ne, ne_eq]
      omega
    rw [h1, h2]
  · rw [if_neg h]

/-- str.lower() is idempotent. -/
theorem pyLower_idem (s : PyStr) : pyLower (pyLower s) = pyLower s := by
  simp only [pyLower, List.map_map]
  exact List.map_congr_left (fun c _ => lowerCode_idem c)

/-- The head surviving a dropWhile fails the predicate. -/
theorem dropWhile_head_false (p : Nat → Bool) :
    ∀ (l : List Nat) (a : Nat) (t : List Nat), l.dropWhile p = a :: t → p a = false := by
  intro l
  induction l with
  | nil => intro a t h; simp [List.dropWhile] at h
  | cons x xs ih =>
    intro a t h
    rw [List.dropWhile_cons] at h
    by_cases hp : p x = true
    · rw [if_pos hp] at h; exact ih a t h
    · rw [if_neg hp] at h
      cases h
      simpa using hp

/-- Left stripping is idempotent. -/
theorem stripL_idem (s : PyStr) : stripL (stripL s) = stripL s := by
  unfold stripL
  cases h : s.dropWhile isSpaceCode with
  | nil => simp
  | cons a t =>
    rw [List.dropWhile_cons, if_neg (by simp [dropWhile_head_false isSpaceCode s a t h])]

/-- The right-stripped list begins the original list. -/
theorem stripR_append (l : PyStr) : ∃ u, l = stripR l ++ u := by
  refine ⟨(l.reverse.takeWhile isSpaceCode).reverse, ?_⟩
  unfold stripR stripL
  conv_lhs => rw [← List.reverse_reverse l,
    ← List.takeWhile_append_dropWhile (p := isSpaceCode) (l := l.reverse)]
  rw [List.reverse_append]

/-- Right stripping is idempotent. -/
theorem stripR_idem (s : PyStr) : stripR (stripR s) = stripR s := by
  unfold stripR
  rw [List.reverse_reverse, stripL_idem]

/-- Left stripping an already fully stripped list changes nothing. -/
theorem stripL_stripR_stripL (s : PyStr) : stripL (stripR (stripL s)) = stripR (stripL s) := by
  cases h : stripR (stripL s) with
  | nil => simp [stripL]
  | cons a t =>
    obtain ⟨u, hu⟩ := stripR_append (stripL s)
    rw [h] at hu
    have hs : s.dropWhile isSpaceCode = a :: (t ++ u) := by
      simpa [stripL] using hu
    have ha := dropWhile_head_false isSpaceCode s a (t ++ u) hs
    unfold stripL
    rw [List.dropWhile_cons, if_neg (by simp [ha])]

/-- str.strip() is idempotent. -/
theorem pyStrip_idem (s : PyStr) : pyStrip (pyStrip s) = pyStrip s := by
  unfold pyStrip
  rw [stripL_stripR_stripL, stripR_idem]

/-- Left stripping commutes with lower-casing. -/
theorem stripL_lower (s : PyStr) : stripL (pyLower s) = pyLower (stripL s) := by
  have hfun : isSpaceCode ∘ lowerCode = isSpaceCode := funext isSpace_lower
  simp only [stripL, pyLower]
  rw [List.dropWhile_map, hfun]

/-- Right stripping commutes with lower-casing. -/
theorem stripR_lower (s : PyStr) : stripR (pyLower s) = pyLower (stripR s) := by
  unfold stripR
  rw [show (pyLower s).reverse = pyLower s.reverse by simp [pyLower, List.map_reverse]]
  rw [stripL_lower]
  simp [pyLower, List.map_reverse]

/-- str.strip() commutes with lower-casing. -/
theorem pyStrip_lower (s : PyStr) : pyStrip (pyLower s) = pyLower (pyStrip s) := by
  unfold pyStrip
  rw [stripL_lower, stripR_lower]

/-- Lower-casing keeps a list nonempty. -/
theorem pyLower_ne_nil {s : PyStr} (h : s ≠ []) : pyLower s ≠ [] := by
  cases s with
  | nil => exact absurd rfl h
  | cons a t => simp [pyLower]

/-- With enough fuel, the decimal digits evaluate back to the number. -/
theorem digitsVal_aux : ∀ fuel n, n ≤ fuel → digitsVal (natDigitsAux fuel n) = n := by
  intro fuel
  induction fuel with
  | zero =>
    intro n h
    have : n = 0 := by omega
    simp [this, natDigitsAux, digitsVal]
  | succ f ih =>
    intro n h
    unfold natDigitsAux
    by_cases h0 : n = 0
    · simp [h0, digitsVal]
    · rw [if_neg h0]
      simp only [digitsVal]
      rw [ih (n / 10) (by omega)]
      omega

/-- Round trip of the decimal digit extraction. -/
theorem digitsVal_natDigits (n : Nat) : digitsVal (natDigits n) = n :=
  digitsVal_aux n n le_rfl

/-- fromisoformat inverts isoformat on date ordinals. -/
theorem fromisoformat_isoformat (d : Nat) : fromisoformat (isoformat d) = d := by
  unfold fromisoformat isoformat
  rw [List.map_reverse, List.map_map, List.reverse_reverse]
  have : ((· - 48) ∘ (· + 48) : Nat → Nat) = id := by
    funext x; simp
  rw [this, List.map_id, digitsVal_natDigits]

/-- The isoformat of a genuine date (ordinal at least one) is nonempty. -/
theorem isoformat_ne_nil {d : Nat} (h : 1 ≤ d) : isoformat d ≠ [] := by
  unfold isoformat natDigits
  cases d with
  | zero => omega
  | succ k =>
    unfold natDigitsAux
    rw [if_neg (by omega)]
    simp

/-- Every list starts with itself followed by anything. -/
theorem pyStartsWith_append (a b : PyStr) : pyStartsWith a (a ++ b) = true := by
  induction a with
  | nil => rfl
  | cons x xs ih => simp [pyStartsWith, ih]

/-- The fuel of the replace worker does not matter once it covers the
length of the string. -/
theorem replaceAllAux_fuel (pat : PyStr) :
    ∀ f1 f2 s, s.length ≤ f1 → s.length ≤ f2 →
      replaceAllAux pat f1 s = replaceAllAux pat f2 s := by
  intro f1
  induction f1 with
  | zero =>
    intro f2 s h1 _
    have hs : s = [] := List.eq_nil_of_length_eq_zero (by omega)
    subst hs
    cases f2 <;> rfl
  | succ f ih =>
    intro f2 s h1 h2
    cases s with
    | nil => cases f2 <;> rfl
    | cons x rest =>
      cases f2 with
      | zero => simp at h2
      | succ k =>
        have stepL : replaceAllAux pat (f + 1) (x :: rest)
            = if pat ≠ [] ∧ pyStartsWith pat (x :: rest) = true then
                replaceAllAux pat f ((x :: rest).drop pat.length)
              else x :: replaceAllAux pat f rest := rfl
        have stepR : replaceAllAux pat (k + 1) (x :: rest)
            = if pat ≠ [] ∧ pyStartsWith pat (x :: rest) = true then
                replaceAllAux pat k ((x :: rest).drop pat.length)
              else x :: replaceAllAux pat k rest := rfl
        rw [stepL, stepR]
        by_cases hcond : pat ≠ [] ∧ pyStartsWith pat (x :: rest) = true
        · rw [if_pos hcond, if_pos hcond]
          have hp : 1 ≤ pat.length := by
            cases pat with
            | nil => exact absurd rfl hcond.1
            | cons a b => simp
          simp only [List.length_cons] at h1 h2
          exact ih k ((x :: rest).drop pat.length)
            (by simp only [List.length_drop, List.length_cons]; omega)
            (by simp only [List.length_drop, List.length_cons]; omega)
        · rw [if_neg hcond, if_neg hcond]
          simp only [List.length_cons] at h1 h2
          rw [ih k rest (by omega) (by omega)]

/-- str.replace(pat, "") removes a leading occurrence of the pattern. -/
theorem replaceAll_mark (pat s : PyStr) (h : pat ≠ []) :
    replaceAll pat (pat ++ s) = replaceAll pat s := by
  cases pat with
  | nil => exact absurd rfl h
  | cons p ps =>
    show replaceAllAux (p :: ps) ((p :: ps) ++ s).length ((p :: ps) ++ s) = _
    have hl : ((p :: ps) ++ s).length = (ps.length + s.length) + 1 := by
      simp [List.length_append]
    rw [hl]
    have step : replaceAllAux (p :: ps) ((ps.length + s.length) + 1) ((p :: ps) ++ s)
        = if (p :: ps) ≠ [] ∧ pyStartsWith (p :: ps) (p :: (ps ++ s)) = true then
            replaceAllAux (p :: ps) (ps.length + s.length) ((p :: (ps ++ s)).drop (p :: ps).length)
          else p :: replaceAllAux (p :: ps) (ps.length + s.length) (ps ++ s) := rfl
    rw [step, if_pos ⟨by simp, by simpa using pyStartsWith_append (p :: ps) s⟩]
    have hdrop : (p :: (ps ++ s)).drop (p :: ps).length = s := by
      simp only [List.length_cons, List.drop_succ_cons]
      exact List.drop_left ps s
    rw [hdrop]
    exact replaceAllAux_fuel (p :: ps) (ps.length + s.length) s.length s
      (by omega) le_rfl

/-- find? only looks at the values of its predicate. -/
theorem find?_ext {α : Type} (f g : α → Bool) (l : List α) (h : ∀ a, f a = g a) :
    l.find? f = l.find? g := by
  induction l with
  | nil => rfl
  | cons x xs ih =>
    rw [List.find?_cons, List.find?_cons, h x]
    cases g x <;> simp [ih]

/-- Looking a key up in a zip of keys with their images evaluates the
function on found keys. -/
theorem lookup_zip_map (sub : List PyStr) (f : PyStr → Value) (c : PyStr) :
    (sub.zip (sub.map f)).lookup c = if c ∈ sub then some (f c) else none := by
  induction sub with
  | nil => simp [List.lookup]
  | cons x xs ih =>
    show List.lookup c ((x, f x) :: xs.zip (xs.map f)) = _
    by_cases hc : c = x
    · subst hc
      simp
    · rw [List.lookup_cons, beq_eq_false_iff_ne.mpr hc, ih]
      simp [List.mem_cons, hc]

/-- lookupVal on a reindexed row evaluates the original lookup on present
labels. -/
theorem lookupVal_map (sub : List PyStr) (f : PyStr → Value) (c : PyStr) :
    lookupVal sub (sub.map f) c = if c ∈ sub then f c else Value.null := by
  unfold lookupVal
  rw [lookup_zip_map]
  by_cases h : c ∈ sub <;> simp [h]

/-- Reindexing twice collapses when the middle column list covers the
target. -/
theorem reindexRow_trans (cols sub tgt : List PyStr) (r : List Value)
    (h : ∀ c ∈ tgt, c ∈ sub) :
    reindexRow sub (reindexRow cols r sub) tgt = reindexRow cols r tgt := by
  unfold reindexRow
  exact List.map_congr_left (fun c hc => by
    rw [lookupVal_map, if_pos (h c hc)])

/-- Reindexing a row by its own distinct columns is the identity. -/
theorem reindexRow_self : ∀ (cols : List PyStr) (r : List Value),
    cols.Nodup → r.length = cols.length → reindexRow cols r cols = r := by
  intro cols
  induction cols with
  | nil =>
    intro r _ hlen
    cases r with
    | nil => rfl
    | cons v vs => simp at hlen
  | cons c cs ih =>
    intro r hnd hlen
    cases r with
    | nil => simp at hlen
    | cons v vs =>
      have hcs : c ∉ cs := (List.nodup_cons.mp hnd).1
      show (c :: cs).map (lookupVal (c :: cs) (v :: vs)) = v :: vs
      rw [List.map_cons]
      congr 1
      · unfold lookupVal
        show (List.lookup c ((c, v) :: cs.zip vs)).getD Value.null = v
        simp
      · have hmap : cs.map (lookupVal (c :: cs) (v :: vs)) = cs.map (lookupVal cs vs) := by
          refine List.map_congr_left (fun x hx => ?_)
          unfold lookupVal
          show (List.lookup x ((c, v) :: cs.zip vs)).getD Value.null = _
          have hxc : (x == c) = false := by
            refine beq_eq_false_iff_ne.mpr ?_
            rintro rfl; exact hcs hx
          rw [List.lookup_cons, hxc]
        rw [hmap]
        exact ih vs (List.nodup_cons.mp hnd).2 (by simpa using hlen)

/-- Rows whose keys all reappear later are dropped by keep-last dedup. -/
theorem dedupLast_append_left (k : List Value → List Value)
    (xs ys : List (List Value)) (h : ∀ x ∈ xs, ∃ y ∈ ys, k y = k x) :
    dedupLast k (xs ++ ys) = dedupLast k ys := by
  induction xs with
  | nil => rfl
  | cons x xs ih =>
    show dedupLast k (x :: (xs ++ ys)) = _
    have step : dedupLast k (x :: (xs ++ ys)) =
        if (xs ++ ys).any (fun y => k y == k x) then dedupLast k (xs ++ ys)
        else x :: dedupLast k (xs ++ ys) := rfl
    obtain ⟨y, hy, hky⟩ := h x (List.mem_cons_self x xs)
    rw [step, if_pos (by
      refine List.any_eq_true.mpr ⟨y, List.mem_append_right xs hy, ?_⟩
      simp [hky])]
    exact ih (fun x hx => h x (List.mem_cons_of_mem _ hx))

/-- Keep-last dedup does nothing when all keys are distinct. -/
theorem dedupLast_nodup (k : List Value → List Value) :
    ∀ ys : List (List Value), (ys.map k).Nodup → dedupLast k ys = ys := by
  intro ys
  induction ys with
  | nil => intro _; rfl
  | cons y ys ih =>
    intro hnd
    have hy : k y ∉ ys.map k := by simpa using (List.nodup_cons.mp hnd).1
    have step : dedupLast k (y :: ys) =
        if ys.any (fun z => k z == k y) then dedupLast k ys
        else y :: dedupLast k ys := rfl
    rw [step, if_neg (by
      simp only [List.any_eq_true, not_exists]
      rintro z ⟨hz, hkz⟩
      exact hy (List.mem_map.mpr ⟨z, hz, by simpa using hkz⟩))]
    rw [ih (List.nodup_cons.mp hnd).2]

/-- Every member of a joined name list occurs inside the join. -/
theorem mem_infix_joinComma : ∀ (l : List PyStr) (c : PyStr), c ∈ l → c <:+: joinComma l := by
  intro l
  induction l with
  | nil => intro c h; cases h
  | cons x rest ih =>
    intro c h
    cases rest with
    | nil =>
      have : c = x := by simpa using h
      subst this
      exact List.infix_refl c
    | cons y t =>
      rcases List.mem_cons.mp h with hc | hc
      · subst hc
        exact ⟨[], enc ", " ++ joinComma (y :: t), by simp [joinComma]⟩
      · refine List.IsInfix.trans (ih c hc) ?_
        show joinComma (y :: t) <:+: joinComma (x :: y :: t)
        refine List.IsSuffix.isInfix ?_
        show joinComma (y :: t) <:+ x ++ enc ", " ++ joinComma (y :: t)
        rw [List.append_assoc]
        exact (List.suffix_append _ _).trans (List.suffix_append _ _)

/-- Members of the constructor-normalised token list are stripped and
nonempty. -/
theorem mem_normStrip (ts : List PyStr) :
    ∀ x ∈ (ts.map pyStrip).filter (fun t => t ≠ []), pyStrip x = x ∧ x ≠ [] := by
  intro x hx
  obtain ⟨hmem, hne⟩ := List.mem_filter.mp hx
  have hne' : x ≠ [] := by simpa using hne
  obtain ⟨u, _, hu⟩ := List.mem_map.mp hmem
  exact ⟨by rw [← hu, pyStrip_idem], hne'⟩

/-- Strip-and-drop normalisation fixes a list of stripped nonempty
tokens. -/
theorem norm_fix (l : List PyStr) (h : ∀ x ∈ l, pyStrip x = x ∧ x ≠ []) :
    (l.map pyStrip).filter (fun t => t ≠ []) = l := by
  have hmap : l.map pyStrip = l := by
    calc l.map pyStrip = l.map id := List.map_congr_left (fun x hx => (h x hx).1)
      _ = l := List.map_id l
  rw [hmap]
  refine List.filter_eq_self.mpr (fun x hx => ?_)
  simpa using (h x hx).2

/-- Tokens of a constructed TextFilter are stripped, nonempty, and (for a
case-insensitive filter) already lower case. -/
theorem make_tokens_spec (c : PyStr) (ts : List PyStr) (cs : Bool) :
    ∀ t ∈ (TextFilter.make c ts cs).tokens,
      pyStrip t = t ∧ t ≠ [] ∧ (cs = false → pyLower t = t) := by
  intro t ht
  cases cs with
  | true =>
    have ht' : t ∈ (ts.map pyStrip).filter (fun t => t ≠ []) := ht
    obtain ⟨h1, h2⟩ := mem_normStrip ts t ht'
    exact ⟨h1, h2, by intro h; cases h⟩
  | false =>
    have ht' : t ∈ ((ts.map pyStrip).filter (fun t => t ≠ [])).map pyLower := ht
    obtain ⟨x, hx, hxt⟩ := List.mem_map.mp ht'
    obtain ⟨h1, h2⟩ := mem_normStrip ts x hx
    refine ⟨?_, ?_, fun _ => ?_⟩
    · rw [← hxt, pyStrip_lower, h1]
    · rw [← hxt]; exact pyLower_ne_nil h2
    · rw [← hxt, pyLower_idem]

/-- Running the TextFilter constructor on the tokens of a constructed
filter reproduces the same filter. -/
theorem make_idem (c : PyStr) (ts : List PyStr) (cs : Bool) :
    TextFilter.make c (TextFilter.make c ts cs).tokens cs = TextFilter.make c ts cs := by
  have hspec := make_tokens_spec c ts cs
  have hfix : (((TextFilter.make c ts cs).tokens.map pyStrip).filter (fun t => t ≠ []))
      = (TextFilter.make c ts cs).tokens :=
    norm_fix _ (fun x hx => ⟨(hspec x hx).1, (hspec x hx).2.1⟩)
  cases cs with
  | true =>
    show TextFilter.mk c
        (((TextFilter.make c ts true).tokens.map pyStrip).filter (fun t => t ≠ [])) true = _
    rw [hfix]
    rfl
  | false =>
    have hlow : (TextFilter.make c ts false).tokens.map pyLower
        = (TextFilter.make c ts false).tokens := by
      calc (TextFilter.make c ts false).tokens.map pyLower
          = (TextFilter.make c ts false).tokens.map id :=
            List.map_congr_left (fun x hx => (hspec x hx).2.2 rfl)
        _ = _ := List.map_id _
    show TextFilter.mk c
        ((((TextFilter.make c ts false).tokens.map pyStrip).filter
          (fun t => t ≠ [])).map pyLower) false = _
    rw [hfix, hlow]
    rfl

/-- The inner rule loop accepts exactly when every rule of the column
matches the cell. -/
theorem matchesColumnRules_iff (rules : List FilterRule) (v : Value) :
    matchesColumnRules rules v = true ↔ ∀ r ∈ rules, r.matches v = true := by
  induction rules with
  | nil => simp [matchesColumnRules]
  | cons r rest ih =>
    cases hr : r.matches v with
    | true =>
      have hstep : matchesColumnRules (r :: rest) v = matchesColumnRules rest v := by
        simp [matchesColumnRules, hr]
      rw [hstep, ih]
      constructor
      · intro h q hq
        rcases List.mem_cons.mp hq with rfl | hq'
        · exact hr
        · exact h q hq'
      · intro h q hq
        exact h q (List.mem_cons_of_mem _ hq)
    | false =>
      have hstep : matchesColumnRules (r :: rest) v = false := by
        simp [matchesColumnRules, hr]
      rw [hstep]
      constructor
      · intro h; cases h
      · intro h
        have hx := h r (List.mem_cons_self r rest)
        rw [hr] at hx
        cases hx

/-- The outer column loop accepts exactly when every filtered column is
present and all its rules match. -/
theorem matchesAllAux_iff (row : Row) (l : List (PyStr × List FilterRule)) :
    matchesAllAux row l = true ↔
      ∀ p ∈ l, ∃ v, row.lookup p.1 = some v ∧ ∀ r ∈ p.2, r.matches v = true := by
  induction l with
  | nil => simp [matchesAllAux]
  | cons p rest ih =>
    obtain ⟨c, rules⟩ := p
    cases hv : row.lookup c with
    | none =>
      have hstep : matchesAllAux row ((c, rules) :: rest) = false := by
        simp [matchesAllAux, hv]
      rw [hstep]
      constructor
      · intro h; cases h
      · intro h
        obtain ⟨v, hv', _⟩ := h (c, rules) (List.mem_cons_self _ _)
        rw [hv] at hv'
        cases hv'
    | some v =>
      cases hall : matchesColumnRules rules v with
      | true =>
        have hstep : matchesAllAux row ((c, rules) :: rest) = matchesAllAux row rest := by
          simp [matchesAllAux, hv, hall]
        rw [hstep, ih]
        constructor
        · intro h q hq
          rcases List.mem_cons.mp hq with rfl | hq'
          · exact ⟨v, hv, (matchesColumnRules_iff rules v).mp hall⟩
          · exact h q hq'
        · intro h q hq
          exact h q (List.mem_cons_of_mem _ hq)
      | false =>
        have hstep : matchesAllAux row ((c, rules) :: rest) = false := by
          simp [matchesAllAux, hv, hall]
        rw [hstep]
        constructor
        · intro h; cases h
        · intro h
          obtain ⟨w, hw, hwall⟩ := h (c, rules) (List.mem_cons_self _ _)
          rw [hv] at hw
          injection hw with hw'
          subst hw'
          have hx := (matchesColumnRules_iff rules v).mpr hwall
          rw [hall] at hx
          cases hx

/-- C1 (amended): matches_all_filters returns true when no filters are
active, and otherwise it returns true if and only if, for every column
with active rules, the row has that column and the row's cell matches
EVERY rule of that column (AND within each column as well as across
columns); a column absent from the row fails the conjunction. -/
theorem C1_matches_all_filters_and_within (fm : FilterManager) (row : Row) :
    fm.matches_all_filters row = true ↔
      (fm.filters = [] ∨
        ∀ p ∈ fm.filters, ∃ v, row.lookup p.1 = some v ∧ ∀ r ∈ p.2, r.matches v = true) := by
  unfold FilterManager.matches_all_filters
  by_cases he : fm.filters.isEmpty
  · simp [he, List.isEmpty_iff.mp he]
  · rw [if_neg he, matchesAllAux_iff]
    have hne : fm.filters ≠ [] := by simpa [List.isEmpty_iff] using he
    simp [hne]

/-- C1: counterexample to the claim as stated.  With two rules on one
column (at least 0, at most 3) and a cell of 5, the cell matches at least
one rule of the column, so the claimed reading accepts the row, but the
code rejects it: the evaluation is AND across the rules of a column, not
OR. -/
theorem C1_counterexample :
    FilterManager.matches_all_filters
        ⟨[(enc "A", [FilterRule.num ⟨enc "A", ">=", 0⟩, FilterRule.num ⟨enc "A", "<=", 3⟩])]⟩
        [(enc "A", Value.num 5)] = false
      ∧ specMatchesAllOrWithin
        ⟨[(enc "A", [FilterRule.num ⟨enc "A", ">=", 0⟩, FilterRule.num ⟨enc "A", "<=", 3⟩])]⟩
        [(enc "A", Value.num 5)] = true := by
  constructor
  · rfl
  · rfl

/-- C2: counterexample to the claim as stated.  A NaN cell is not a
number, yet float(nan) succeeds and nan != v is True in Python, so the
not-equal filter MATCHES the NaN cell instead of returning false for a
non-numeric cell. -/
theorem C2_counterexample :
    pyFloat Value.nan = some PyFloat.nan
      ∧ (NumericFilter.mk (enc "A") "!=" 1).matches Value.nan = true
      ∧ (NumericFilter.mk (enc "A") ">=" 1).matches Value.nan = false :=
  ⟨rfl, rfl, rfl⟩

/-- C2 (amended): for each of the six operators, NumericFilter.matches
computes the mathematically correct comparison against the threshold on
any cell that coerces to a finite number; returns false (never raising)
on any cell float() cannot coerce; and on a NaN cell, which float() does
coerce, every operator yields false except !=, which yields true (IEEE
NaN comparison semantics). -/
theorem C2_numeric_matches_amended (c : PyStr) (op : String) (hop : op ∈ OPERATORS)
    (t : ℚ) (v : Value) :
    (∀ q, pyFloat v = some (PyFloat.fin q) →
      ((NumericFilter.mk c op t).matches v = true ↔ opDenotes op q t))
    ∧ (pyFloat v = none → (NumericFilter.mk c op t).matches v = false)
    ∧ (pyFloat v = some PyFloat.nan →
        ((NumericFilter.mk c op t).matches v = true ↔ op = "!=")) := by
  have hops : op = ">=" ∨ op = "<=" ∨ op = "==" ∨ op = ">" ∨ op = "<" ∨ op = "!=" := by
    simpa [OPERATORS] using hop
  refine ⟨?_, ?_, ?_⟩
  · intro q hq
    unfold NumericFilter.matches
    rw [hq]
    rcases hops with rfl | rfl | rfl | rfl | rfl | rfl <;>
      simp [opDenotes, pyFloatGe, pyFloatLe, pyFloatEq, pyFloatGt, pyFloatLt, pyFloatNe]
  · intro hq
    unfold NumericFilter.matches
    rw [hq]
  · intro hq
    unfold NumericFilter.matches
    rw [hq]
    rcases hops with rfl | rfl | rfl | rfl | rfl | rfl <;>
      simp [pyFloatGe, pyFloatLe, pyFloatEq, pyFloatGt, pyFloatLt, pyFloatNe]

/-- C2 witness: the greater-or-equal filter at threshold 1 accepts the
finite numeric cell 2, and the not-equal filter matches a NaN cell. -/
theorem C2_numeric_matches_amended_witness :
    ((NumericFilter.mk (enc "Score") ">=" 1).matches (Value.num 2) = true ↔ opDenotes ">=" 2 1)
      ∧ ((NumericFilter.mk (enc "Score") "!=" 1).matches Value.nan = true ↔ "!=" = "!=") :=
  ⟨(C2_numeric_matches_amended (enc "Score") ">=" (by decide) 1 (Value.num 2)).1 2 rfl,
    (C2_numeric_matches_amended (enc "Score") "!=" (by decide) 1 Value.nan).2.2 rfl⟩

/-- Normal form of TextFilter.matches with the lets resolved. -/
theorem textMatches_eq (f : TextFilter) (v : Value) :
    f.matches v =
      (if f.tokens.isEmpty then false
       else f.tokens.any (fun t =>
         pyContainsSub t (if f.case_sensitive then pyStr v else pyLower (pyStr v)))) := rfl

/-- C3: a constructed TextFilter matches a cell exactly when at least one
of its tokens occurs as a substring of the stringified cell, both sides
case-folded unless the filter is case-sensitive. -/
theorem C3_text_matches (c : PyStr) (ts : List PyStr) (cs : Bool) (v : Value) :
    (TextFilter.make c ts cs).matches v = true ↔
      ∃ t ∈ (TextFilter.make c ts cs).tokens,
        pyContainsSub (if cs then t else pyLower t)
          (if cs then pyStr v else pyLower (pyStr v)) = true := by
  have hspec := make_tokens_spec c ts cs
  have hcs : (TextFilter.make c ts cs).case_sensitive = cs := by cases cs <;> rfl
  rw [textMatches_eq, hcs]
  by_cases he : (TextFilter.make c ts cs).tokens.isEmpty
  · rw [if_pos he]
    simp [List.isEmpty_iff.mp he]
  · rw [if_neg he, List.any_eq_true]
    cases cs with
    | true => simp
    | false =>
      constructor
      · rintro ⟨t, ht, hmatch⟩
        refine ⟨t, ht, ?_⟩
        simpa [(hspec t ht).2.2 rfl] using hmatch
      · rintro ⟨t, ht, hmatch⟩
        refine ⟨t, ht, ?_⟩
        simpa [(hspec t ht).2.2 rfl] using hmatch

/-- C9: when every supplied token strips to the empty string, the
TextFilter constructor leaves an empty token list, and such a filter
matches no cell at all. -/
theorem C9_blank_tokens (c : PyStr) (ts : List PyStr) (cs : Bool)
    (h : ∀ t ∈ ts, pyStrip t = []) :
    (TextFilter.make c ts cs).tokens = []
      ∧ ∀ v, (TextFilter.make c ts cs).matches v = false := by
  have hfilter : (ts.map pyStrip).filter (fun t => t ≠ []) = [] := by
    rw [List.filter_eq_nil_iff]
    intro a ha
    obtain ⟨u, hu, hua⟩ := List.mem_map.mp ha
    simp [← hua, h u hu]
  have htok : (TextFilter.make c ts cs).tokens = [] := by
    cases cs with
    | true => exact hfilter
    | false =>
      show ((ts.map pyStrip).filter (fun t => t ≠ [])).map pyLower = []
      rw [hfilter]
      rfl
  refine ⟨htok, fun v => ?_⟩
  rw [textMatches_eq, htok]
  rfl

/-- C9 witness: a token list of one all-space token and one empty token
produces a filter with no tokens that rejects a sample cell. -/
theorem C9_blank_tokens_witness :
    (TextFilter.make (enc "Name") [enc "  ", []] false).tokens = []
      ∧ ∀ v, (TextFilter.make (enc "Name") [enc "  ", []] false).matches v = false :=
  C9_blank_tokens (enc "Name") [enc "  ", []] false (by decide)

/-- Python structural equality of a rule with itself holds. -/
theorem ruleEq_refl (r : FilterRule) : ruleEq r r = true := by
  cases r with
  | num f => simp [ruleEq]
  | text f =>
    simp only [ruleEq, Bool.and_eq_true, beq_self_eq_true, true_and, and_true,
      List.all_eq_true]
    exact ⟨fun t ht => by simpa using ht, fun t ht => by simpa using ht⟩
  | date f => simp [ruleEq]

/-- C5: for each of the three variants, serialising a rule and parsing it
back with the matching from_dict yields a rule equal to the original under
the variant's structural equality (DateFilter bounds are genuine dates,
with ordinal at least one). -/
theorem C5_to_dict_from_dict_roundtrip :
    (∀ (c : PyStr) (op : String) (t : ℚ),
      ruleEq (FilterRule.num (NumericFilter.from_dict (NumericFilter.to_dict ⟨c, op, t⟩)))
        (FilterRule.num ⟨c, op, t⟩) = true)
    ∧ (∀ (c : PyStr) (ts : List PyStr) (cs : Bool),
      ruleEq (FilterRule.text (TextFilter.from_dict (TextFilter.to_dict (TextFilter.make c ts cs))))
        (FilterRule.text (TextFilter.make c ts cs)) = true)
    ∧ (∀ (c : PyStr) (s e : Option Nat),
      (∀ d ∈ s, 1 ≤ d) → (∀ d ∈ e, 1 ≤ d) →
      ruleEq (FilterRule.date (DateFilter.from_dict (DateFilter.to_dict ⟨c, s, e⟩)))
        (FilterRule.date ⟨c, s, e⟩) = true) := by
  refine ⟨fun c op t => ruleEq_refl _, fun c ts cs => ?_, fun c s e hs he => ?_⟩
  · have heq : TextFilter.from_dict (TextFilter.to_dict (TextFilter.make c ts cs))
        = TextFilter.make c (TextFilter.make c ts cs).tokens cs := by
      cases cs <;> rfl
    rw [heq, make_idem]
    exact ruleEq_refl _
  · have hstart : (DateFilter.from_dict (DateFilter.to_dict ⟨c, s, e⟩)).start_date = s := by
      cases s with
      | none => rfl
      | some d =>
        show (if isoformat d = [] then none else some (fromisoformat (isoformat d))) = some d
        rw [if_neg (isoformat_ne_nil (hs d rfl)), fromisoformat_isoformat]
    have hend : (DateFilter.from_dict (DateFilter.to_dict ⟨c, s, e⟩)).end_date = e := by
      cases e with
      | none => rfl
      | some d =>
        show (if isoformat d = [] then none else some (fromisoformat (isoformat d))) = some d
        rw [if_neg (isoformat_ne_nil (he d rfl)), fromisoformat_isoformat]
    have hcol : (DateFilter.from_dict (DateFilter.to_dict ⟨c, s, e⟩)).column = c := rfl
    simp [ruleEq, hstart, hend, hcol]

/-- C5 witness: a DateFilter with a real start date round-trips to an
equal rule. -/
theorem C5_to_dict_from_dict_roundtrip_witness :
    ruleEq (FilterRule.date (DateFilter.from_dict (DateFilter.to_dict ⟨enc "D", some 7, none⟩)))
      (FilterRule.date ⟨enc "D", some 7, none⟩) = true :=
  C5_to_dict_from_dict_roundtrip.2.2 (enc "D") (some 7) none (by decide) (by decide)

/-- Folding bucket concatenation never empties a nonempty accumulator. -/
theorem foldl_acc_ne_nil (l : List (PyStr × List FilterRule)) :
    ∀ acc : List FilterRule, acc ≠ [] →
      l.foldl (fun a q => a ++ q.2) acc ≠ [] := by
  induction l with
  | nil => intro acc h; exact h
  | cons q qs ih =>
    intro acc h
    refine ih (acc ++ q.2) ?_
    cases acc with
    | nil => exact absurd rfl h
    | cons a t => simp

/-- C10: every FilterManager operation preserves the invariant that each
bucket in the filters dict is nonempty (add_filter fills the bucket it
creates, remove_filter deletes a bucket that empties, the clear operations
delete buckets outright), and under that invariant has_filters holds
exactly when some rule is active. -/
theorem C10_filter_manager_invariant :
    (∀ (fm : FilterManager) (r : FilterRule), FMInv fm → FMInv (fm.add_filter r))
    ∧ (∀ (fm : FilterManager) (r : FilterRule), FMInv fm → FMInv (fm.remove_filter r))
    ∧ (∀ (fm : FilterManager) (c : PyStr), FMInv fm → FMInv (fm.clear_column_filters c))
    ∧ (∀ fm : FilterManager, FMInv fm.clear_all)
    ∧ (∀ fm : FilterManager, FMInv fm →
        (fm.has_filters = true ↔ fm.get_all_filters ≠ [])) := by
  refine ⟨?_, ?_, ?_, ?_, ?_⟩
  · intro fm r hinv p hp
    unfold FilterManager.add_filter at hp
    simp only [List.mem_map] at hp
    by_cases hc : fm.filters.any (fun p => p.1 == r.column)
    · rw [if_pos hc] at hp
      obtain ⟨q, hq, hgq⟩ := hp
      by_cases h1 : q.1 == r.column
      · rw [if_pos h1] at hgq
        subst hgq
        by_cases h2 : q.2.any (fun x => ruleEq x r)
        · simpa [h2] using hinv q hq
        · simp only [h2, Bool.false_eq_true, if_neg]
          cases hqe : q.2 <;> simp
      · rw [if_neg h1] at hgq
        subst hgq
        exact hinv q hq
    · rw [if_neg hc] at hp
      obtain ⟨q, hq, hgq⟩ := hp
      rcases List.mem_append.mp hq with hq' | hq'
      · by_cases h1 : q.1 == r.column
        · rw [if_pos h1] at hgq
          subst hgq
          by_cases h2 : q.2.any (fun x => ruleEq x r)
          · simpa [h2] using hinv q hq'
          · simp only [h2, Bool.false_eq_true, if_neg]
            cases hqe : q.2 <;> simp
        · rw [if_neg h1] at hgq
          subst hgq
          exact hinv q hq'
      · have hq2 : q = (r.column, []) := by simpa using hq'
        subst hq2
        rw [if_pos (by simp)] at hgq
        subst hgq
        simp
  · intro fm r hinv p hp
    unfold FilterManager.remove_filter at hp
    simp only [List.mem_filterMap] at hp
    obtain ⟨q, hq, hfq⟩ := hp
    by_cases h1 : q.1 == r.column
    · rw [if_pos h1] at hfq
      by_cases h2 : q.2.any (fun x => ruleEq x r)
      · rw [if_pos h2] at hfq
        by_cases h3 : (removeFirst r q.2).isEmpty
        · rw [if_pos h3] at hfq
          cases hfq
        · rw [if_neg h3] at hfq
          injection hfq with hfq'
          subst hfq'
          simpa [List.isEmpty_iff] using h3
      · rw [if_neg h2] at hfq
        injection hfq with hfq'
        subst hfq'
        exact hinv q hq
    · rw [if_neg h1] at hfq
      injection hfq with hfq'
      subst hfq'
      exact hinv q hq
  · intro fm c hinv p hp
    unfold FilterManager.clear_column_filters at hp
    exact hinv p (List.mem_of_mem_filter hp)
  · intro fm p hp
    cases hp
  · intro fm hinv
    cases hf : fm.filters with
    | nil =>
      simp [FilterManager.has_filters, FilterManager.get_all_filters, hf]
    | cons p rest =>
      have hne : p.2 ≠ [] := hinv p (by rw [hf]; exact List.mem_cons_self _ _)
      constructor
      · intro _
        show fm.filters.foldl (fun a q => a ++ q.2) [] ≠ []
        rw [hf]
        refine foldl_acc_ne_nil rest ([] ++ p.2) ?_
        simpa using hne
      · intro _
        simp [FilterManager.has_filters, hf]

/-- C10 witness: a manager holding one rule satisfies the invariant and
reports active filters exactly as its flat rule list is nonempty. -/
theorem C10_filter_manager_invariant_witness :
    FilterManager.has_filters ⟨[(enc "A", [FilterRule.num ⟨enc "A", ">=", 1⟩])]⟩ = true ↔
      FilterManager.get_all_filters ⟨[(enc "A", [FilterRule.num ⟨enc "A", ">=", 1⟩])]⟩ ≠ [] :=
  C10_filter_manager_invariant.2.2.2.2 _ (by unfold FMInv; decide)

/-- An if on a list known nonempty collapses to its then branch. -/
theorem ite_not_isEmpty (l : List PyStr) (h : l.isEmpty = false) (a b : PyStr) :
    (if !l.isEmpty then a else b) = a := by
  rw [h]
  rfl

/-- C6: when the base column sets differ, merge returns the existing
table unchanged with failure, and the error message contains the name of
every column missing from the incoming table and of every extra column it
carries. -/
theorem C6_merge_mismatch (e n : DataFrame)
    (h : sameColumnSet (e.columns.filter (fun c => c ≠ DATE_COL_NAME))
          (n.columns.filter (fun c => c ≠ DATE_COL_NAME)) = false) :
    ∃ msg, merge_dataframes e n = some (e, false, msg)
      ∧ (∀ c ∈ e.columns.filter (fun c => c ≠ DATE_COL_NAME),
          c ∉ n.columns.filter (fun c => c ≠ DATE_COL_NAME) → c <:+: msg)
      ∧ (∀ c ∈ n.columns.filter (fun c => c ≠ DATE_COL_NAME),
          c ∉ e.columns.filter (fun c => c ≠ DATE_COL_NAME) → c <:+: msg) := by
  have hcond : (!(sameColumnSet (e.columns.filter (fun c => c ≠ DATE_COL_NAME))
      (n.columns.filter (fun c => c ≠ DATE_COL_NAME)))) = true := by rw [h]; rfl
  refine ⟨enc "Column mismatch:\n"
      ++ (if !((e.columns.filter (fun c => c ≠ DATE_COL_NAME)).filter
            (fun c => c ∉ n.columns.filter (fun c => c ≠ DATE_COL_NAME))).isEmpty
          then enc "Missing: " ++ joinComma ((e.columns.filter (fun c => c ≠ DATE_COL_NAME)).filter
            (fun c => c ∉ n.columns.filter (fun c => c ≠ DATE_COL_NAME))) ++ enc "\n"
          else [])
      ++ (if !((n.columns.filter (fun c => c ≠ DATE_COL_NAME)).filter
            (fun c => c ∉ e.columns.filter (fun c => c ≠ DATE_COL_NAME))).isEmpty
          then enc "Extra: " ++ joinComma ((n.columns.filter (fun c => c ≠ DATE_COL_NAME)).filter
            (fun c => c ∉ e.columns.filter (fun c => c ≠ DATE_COL_NAME))) ++ enc "\n"
          else []), ?_, ?_, ?_⟩
  · simp only [merge_dataframes, hcond, if_true]
  · intro c hc hcn
    have hcm : c ∈ (e.columns.filter (fun c => c ≠ DATE_COL_NAME)).filter
        (fun c => c ∉ n.columns.filter (fun c => c ≠ DATE_COL_NAME)) :=
      List.mem_filter.mpr ⟨hc, decide_eq_true hcn⟩
    have h1 := mem_infix_joinComma _ c hcm
    have hmne : ((e.columns.filter (fun c => c ≠ DATE_COL_NAME)).filter
        (fun c => c ∉ n.columns.filter (fun c => c ≠ DATE_COL_NAME))).isEmpty = false := by
      cases hbe : ((e.columns.filter (fun c => c ≠ DATE_COL_NAME)).filter
          (fun c => c ∉ n.columns.filter (fun c => c ≠ DATE_COL_NAME))).isEmpty
      · rfl
      · exact absurd (List.isEmpty_iff.mp hbe) (List.ne_nil_of_mem hcm)
    refine h1.trans ⟨enc "Column mismatch:\n" ++ enc "Missing: ",
      enc "\n" ++ (if !((n.columns.filter (fun c => c ≠ DATE_COL_NAME)).filter
        (fun c => c ∉ e.columns.filter (fun c => c ≠ DATE_COL_NAME))).isEmpty
        then enc "Extra: " ++ joinComma ((n.columns.filter (fun c => c ≠ DATE_COL_NAME)).filter
          (fun c => c ∉ e.columns.filter (fun c => c ≠ DATE_COL_NAME))) ++ enc "\n"
        else []), ?_⟩
    rw [ite_not_isEmpty _ hmne]
    simp only [List.append_assoc]
  · intro c hc hce
    have hcm : c ∈ (n.columns.filter (fun c => c ≠ DATE_COL_NAME)).filter
        (fun c => c ∉ e.columns.filter (fun c => c ≠ DATE_COL_NAME)) :=
      List.mem_filter.mpr ⟨hc, decide_eq_true hce⟩
    have h1 := mem_infix_joinComma _ c hcm
    have hene : ((n.columns.filter (fun c => c ≠ DATE_COL_NAME)).filter
        (fun c => c ∉ e.columns.filter (fun c => c ≠ DATE_COL_NAME))).isEmpty = false := by
      cases hbe : ((n.columns.filter (fun c => c ≠ DATE_COL_NAME)).filter
          (fun c => c ∉ e.columns.filter (fun c => c ≠ DATE_COL_NAME))).isEmpty
      · rfl
      · exact absurd (List.isEmpty_iff.mp hbe) (List.ne_nil_of_mem hcm)
    refine h1.trans ⟨(enc "Column mismatch:\n"
      ++ (if !((e.columns.filter (fun c => c ≠ DATE_COL_NAME)).filter
        (fun c => c ∉ n.columns.filter (fun c => c ≠ DATE_COL_NAME))).isEmpty
        then enc "Missing: " ++ joinComma ((e.columns.filter (fun c => c ≠ DATE_COL_NAME)).filter
          (fun c => c ∉ n.columns.filter (fun c => c ≠ DATE_COL_NAME))) ++ enc "\n"
        else [])) ++ enc "Extra: ", enc "\n", ?_⟩
    rw [ite_not_isEmpty _ hene]
    simp only [List.append_assoc]

/-- C6 witness: a five-row table with columns ID and Name merged against a
table also carrying Extra fails, leaves the table unchanged, and the
message names Extra. -/
theorem C6_merge_mismatch_witness :
    ∃ msg, merge_dataframes
        (⟨[enc "ID", enc "Name"],
          [[Value.num 1, Value.str (enc "a")], [Value.num 2, Value.str (enc "b")],
           [Value.num 3, Value.str (enc "c")], [Value.num 4, Value.str (enc "d")],
           [Value.num 5, Value.str (enc "e")]]⟩ : DataFrame)
        (⟨[enc "ID", enc "Name", enc "Extra"], []⟩ : DataFrame)
      = some ((⟨[enc "ID", enc "Name"],
          [[Value.num 1, Value.str (enc "a")], [Value.num 2, Value.str (enc "b")],
           [Value.num 3, Value.str (enc "c")], [Value.num 4, Value.str (enc "d")],
           [Value.num 5, Value.str (enc "e")]]⟩ : DataFrame), false, msg)
      ∧ (∀ c ∈ (⟨[enc "ID", enc "Name"],
          [[Value.num 1, Value.str (enc "a")], [Value.num 2, Value.str (enc "b")],
           [Value.num 3, Value.str (enc "c")], [Value.num 4, Value.str (enc "d")],
           [Value.num 5, Value.str (enc "e")]]⟩ : DataFrame).columns.filter
            (fun c => c ≠ DATE_COL_NAME),
          c ∉ (⟨[enc "ID", enc "Name", enc "Extra"], []⟩ : DataFrame).columns.filter
            (fun c => c ≠ DATE_COL_NAME) → c <:+: msg)
      ∧ (∀ c ∈ (⟨[enc "ID", enc "Name", enc "Extra"], []⟩ : DataFrame).columns.filter
            (fun c => c ≠ DATE_COL_NAME),
          c ∉ (⟨[enc "ID", enc "Name"],
          [[Value.num 1, Value.str (enc "a")], [Value.num 2, Value.str (enc "b")],
           [Value.num 3, Value.str (enc "c")], [Value.num 4, Value.str (enc "d")],
           [Value.num 5, Value.str (enc "e")]]⟩ : DataFrame).columns.filter
            (fun c => c ≠ DATE_COL_NAME) → c <:+: msg) :=
  C6_merge_mismatch _ _ (by decide)

/-- C7 (amended): merging a table into itself is the identity once the
table carries the timestamp column, has distinct column labels and
well-formed rows, and is already deduplicated by its non-timestamp
columns; without the timestamp column the selection
new_df[existing_base + [DATE_COL_NAME]] raises instead. -/
theorem C7_merge_self (df : DataFrame)
    (hnd : df.columns.Nodup)
    (hlen : ∀ r ∈ df.rows, r.length = df.columns.length)
    (hdate : DATE_COL_NAME ∈ df.columns)
    (hkeys : (df.rows.map (fun r =>
        reindexRow df.columns r (df.columns.filter (fun c => c ≠ DATE_COL_NAME)))).Nodup) :
    merge_dataframes df df = some (df, true, enc "Successfully merged") := by
  obtain ⟨cols, rows⟩ := df
  dsimp only at hnd hlen hdate hkeys
  have hcond : (!(sameColumnSet (cols.filter (fun c => c ≠ DATE_COL_NAME))
      (cols.filter (fun c => c ≠ DATE_COL_NAME)))) = false := by
    have : sameColumnSet (cols.filter (fun c => c ≠ DATE_COL_NAME))
        (cols.filter (fun c => c ≠ DATE_COL_NAME)) = true := by
      unfold sameColumnSet
      rw [Bool.and_eq_true, List.all_eq_true]
      exact ⟨fun c hc => decide_eq_true hc, fun c hc => decide_eq_true hc⟩
    rw [this]
    rfl
  have hsub : ∀ c ∈ cols.filter (fun c => c ≠ DATE_COL_NAME) ++ [DATE_COL_NAME], c ∈ cols := by
    intro c hc
    rcases List.mem_append.mp hc with h1 | h1
    · exact (List.mem_filter.mp h1).1
    · rw [List.mem_singleton.mp h1]
      exact hdate
  have hcover : ∀ c ∈ cols, c ∈ cols.filter (fun c => c ≠ DATE_COL_NAME) ++ [DATE_COL_NAME] := by
    intro c hc
    by_cases hcd : c = DATE_COL_NAME
    · exact List.mem_append_right _ (by simp [hcd])
    · exact List.mem_append_left _ (List.mem_filter.mpr ⟨hc, by simpa using hcd⟩)
  have hsel : selectCols ⟨cols, rows⟩ (cols.filter (fun c => c ≠ DATE_COL_NAME) ++ [DATE_COL_NAME])
      = some ⟨cols.filter (fun c => c ≠ DATE_COL_NAME) ++ [DATE_COL_NAME],
          rows.map (fun r => reindexRow cols r
            (cols.filter (fun c => c ≠ DATE_COL_NAME) ++ [DATE_COL_NAME]))⟩ := by
    unfold selectCols
    rw [if_pos (by
      rw [List.all_eq_true]
      intro c hc
      simpa using hsub c hc)]
  have hconcat_cols : (cols.filter (fun c => c ≠ DATE_COL_NAME) ++ [DATE_COL_NAME]).filter
      (fun c => c ∉ cols) = [] :=
    List.filter_eq_nil_iff.mpr (fun c hc => by simpa using hsub c hc)
  have hrow1 : rows.map (fun r => reindexRow cols r cols) = rows := by
    calc rows.map (fun r => reindexRow cols r cols)
        = rows.map id := List.map_congr_left (fun r hr => reindexRow_self cols r hnd (hlen r hr))
      _ = rows := List.map_id rows
  have hrow2 : (rows.map (fun r => reindexRow cols r
        (cols.filter (fun c => c ≠ DATE_COL_NAME) ++ [DATE_COL_NAME]))).map
      (fun r => reindexRow (cols.filter (fun c => c ≠ DATE_COL_NAME) ++ [DATE_COL_NAME]) r cols)
      = rows := by
    rw [List.map_map]
    calc rows.map ((fun r => reindexRow (cols.filter (fun c => c ≠ DATE_COL_NAME)
          ++ [DATE_COL_NAME]) r cols) ∘ (fun r => reindexRow cols r
            (cols.filter (fun c => c ≠ DATE_COL_NAME) ++ [DATE_COL_NAME])))
        = rows.map (fun r => reindexRow cols r cols) :=
          List.map_congr_left (fun r _ => reindexRow_trans cols
            (cols.filter (fun c => c ≠ DATE_COL_NAME) ++ [DATE_COL_NAME]) cols r hcover)
      _ = rows := hrow1
  have hdedup : dedupLast (fun r => reindexRow cols r (cols.filter (fun c => c ≠ DATE_COL_NAME)))
      (rows ++ rows) = rows := by
    rw [dedupLast_append_left _ rows rows (fun x hx => ⟨x, hx, rfl⟩),
      dedupLast_nodup _ rows hkeys]
  have hcc : (concatFrames ⟨cols, rows⟩
      ⟨cols.filter (fun c => c ≠ DATE_COL_NAME) ++ [DATE_COL_NAME],
        rows.map (fun r => reindexRow cols r
          (cols.filter (fun c => c ≠ DATE_COL_NAME) ++ [DATE_COL_NAME]))⟩).columns = cols := by
    show cols ++ (cols.filter (fun c => c ≠ DATE_COL_NAME) ++ [DATE_COL_NAME]).filter
        (fun c => c ∉ cols) = cols
    rw [hconcat_cols, List.append_nil]
  have hcr : (concatFrames ⟨cols, rows⟩
      ⟨cols.filter (fun c => c ≠ DATE_COL_NAME) ++ [DATE_COL_NAME],
        rows.map (fun r => reindexRow cols r
          (cols.filter (fun c => c ≠ DATE_COL_NAME) ++ [DATE_COL_NAME]))⟩).rows
      = rows ++ rows := by
    show rows.map (fun r => reindexRow cols r (cols ++ (cols.filter
          (fun c => c ≠ DATE_COL_NAME) ++ [DATE_COL_NAME]).filter (fun c => c ∉ cols)))
        ++ (rows.map (fun r => reindexRow cols r
            (cols.filter (fun c => c ≠ DATE_COL_NAME) ++ [DATE_COL_NAME]))).map
          (fun r => reindexRow (cols.filter (fun c => c ≠ DATE_COL_NAME) ++ [DATE_COL_NAME]) r
            (cols ++ (cols.filter (fun c => c ≠ DATE_COL_NAME) ++ [DATE_COL_NAME]).filter
              (fun c => c ∉ cols)))
        = rows ++ rows
    rw [hconcat_cols, List.append_nil, hrow1, hrow2]
  have hmerge_eq : merge_dataframes ⟨cols, rows⟩ ⟨cols, rows⟩
      = some (⟨(concatFrames ⟨cols, rows⟩
            ⟨cols.filter (fun c => c ≠ DATE_COL_NAME) ++ [DATE_COL_NAME],
              rows.map (fun r => reindexRow cols r
                (cols.filter (fun c => c ≠ DATE_COL_NAME) ++ [DATE_COL_NAME]))⟩).columns,
          dedupLast (fun r => reindexRow (concatFrames ⟨cols, rows⟩
            ⟨cols.filter (fun c => c ≠ DATE_COL_NAME) ++ [DATE_COL_NAME],
              rows.map (fun r => reindexRow cols r
                (cols.filter (fun c => c ≠ DATE_COL_NAME) ++ [DATE_COL_NAME]))⟩).columns r
            (cols.filter (fun c => c ≠ DATE_COL_NAME)))
            (concatFrames ⟨cols, rows⟩
              ⟨cols.filter (fun c => c ≠ DATE_COL_NAME) ++ [DATE_COL_NAME],
                rows.map (fun r => reindexRow cols r
                  (cols.filter (fun c => c ≠ DATE_COL_NAME) ++ [DATE_COL_NAME]))⟩).rows⟩,
          true, enc "Successfully merged") := by
    unfold merge_dataframes
    dsimp only
    rw [hcond, if_neg Bool.false_ne_true, hsel]
  rw [hmerge_eq, hcc, hcr, hdedup]

/-- C7 witness: a one-row table with an ID column and the timestamp column
self-merges to itself. -/
theorem C7_merge_self_witness :
    merge_dataframes
        (⟨[enc "ID", DATE_COL_NAME], [[Value.num 1, Value.str (enc "t")]]⟩ : DataFrame)
        (⟨[enc "ID", DATE_COL_NAME], [[Value.num 1, Value.str (enc "t")]]⟩ : DataFrame)
      = some ((⟨[enc "ID", DATE_COL_NAME], [[Value.num 1, Value.str (enc "t")]]⟩ : DataFrame),
          true, enc "Successfully merged") :=
  C7_merge_self _ (by decide) (by decide) (by decide) (by decide)

/-- C7: counterexample to the claim as stated.  A deduplicated one-column
table without the timestamp column does not self-merge successfully: the
selection of the absent timestamp column raises a KeyError (modelled as
none). -/
theorem C7_counterexample :
    ¬ (merge_dataframes (⟨[enc "ID"], [[Value.num 1]]⟩ : DataFrame)
          (⟨[enc "ID"], [[Value.num 1]]⟩ : DataFrame)
        = some ((⟨[enc "ID"], [[Value.num 1]]⟩ : DataFrame), true, enc "Successfully merged")) := by
  decide

/-- Removing every "[F] " occurrence from a displayed header gives the
same result whether or not the column carries the filter indicator. -/
theorem replaceAll_headerData (m : SourceModel) (c : Nat) :
    replaceAll FILTER_MARK (m.headerData c)
      = replaceAll FILTER_MARK (m.df.columns.getD c []) := by
  unfold SourceModel.headerData
  dsimp only
  by_cases hc : c < m.columnCount
  · rw [if_pos hc]
    cases hb : (m.fm.get_filters_for_column (m.columnName c)).isEmpty with
    | true =>
      rw [if_neg (by decide)]
      rfl
    | false =>
      rw [if_pos (by decide)]
      exact replaceAll_mark FILTER_MARK (m.columnName c) (by decide)
  · rw [if_neg hc]
    have hlen : m.df.columns.length ≤ c := by
      unfold SourceModel.columnCount at hc
      omega
    have hd : m.df.columns.getD c [] = [] := List.getD_eq_default _ _ hlen
    rw [hd]

/-- Column lookup by display name does not depend on the filter state or
the highlight mask of the model: the "[F] " indicator is stripped before
comparing. -/
theorem get_column_index_congr (df : DataFrame) (fm1 fm2 : FilterManager)
    (mask1 mask2 : Option (List Bool)) (name : PyStr) :
    get_column_index ⟨df, fm1, mask1⟩ name = get_column_index ⟨df, fm2, mask2⟩ name := by
  unfold get_column_index
  apply find?_ext
  intro c
  have h1 := replaceAll_headerData ⟨df, fm1, mask1⟩ c
  have h2 := replaceAll_headerData ⟨df, fm2, mask2⟩ c
  rw [h1, h2]

/-- C8: with extra per-view filters configured, in OR mode a row is
visible only if some extra filter whose column is found matches the row's
raw cell; in AND mode a row is hidden as soon as some extra filter with a
nonempty column name has its column absent or fails to match; and the
column lookup strips the "[F] " indicator, so it is unaffected by the
filter state shown in the headers. -/
theorem C8_extra_filters (p : SmartSearchProxy) (m : SourceModel) (row : Nat)
    (hne : p.extra_filters ≠ []) :
    (p.extra_filter_mode = "any" → filterAcceptsRow p m row = true →
      ∃ f ∈ p.extra_filters, ∃ ci, get_column_index m f.column = some ci
        ∧ f.matches (m.get_raw_value row ci) = true)
    ∧ (p.extra_filter_mode ≠ "any" →
      (∃ f ∈ p.extra_filters, f.column ≠ []
        ∧ ∀ ci, get_column_index m f.column = some ci →
            f.matches (m.get_raw_value row ci) = false) →
      filterAcceptsRow p m row = false)
    ∧ (∀ (name : PyStr) (fm2 : FilterManager) (mask2 : Option (List Bool)),
        get_column_index ⟨m.df, fm2, mask2⟩ name = get_column_index m name) := by
  refine ⟨?_, ?_, ?_⟩
  · intro hmode hacc
    have hs3 : extraAccepts p m row = true := by
      unfold filterAcceptsRow at hacc
      simp only [Bool.and_eq_true] at hacc
      exact hacc.2
    unfold extraAccepts at hs3
    rw [if_neg (by simpa [List.isEmpty_iff] using hne)] at hs3
    rw [if_pos (by rw [hmode]; decide)] at hs3
    obtain ⟨f, hf, hpred⟩ := List.any_eq_true.mp hs3
    simp only [Bool.and_eq_true] at hpred
    have h2 := hpred.2
    cases hgci : get_column_index m f.column with
    | none =>
      rw [hgci] at h2
      simp at h2
    | some ci =>
      rw [hgci] at h2
      exact ⟨f, hf, ci, hgci, h2⟩
  · intro hmode hbad
    obtain ⟨f, hf, hcol, hfail⟩ := hbad
    have hs3 : extraAccepts p m row = false := by
      unfold extraAccepts
      rw [if_neg (by simpa [List.isEmpty_iff] using hne)]
      rw [if_neg (by simpa using hmode)]
      refine List.all_eq_false.mpr ⟨f, hf, ?_⟩
      have hie : f.column.isEmpty = false := by simpa [List.isEmpty_iff] using hcol
      cases hgci : get_column_index m f.column with
      | none => simp [hie, hgci]
      | some ci => simp [hie, hgci, hfail ci hgci]
    unfold filterAcceptsRow
    simp [hs3]
  · intro name fm2 mask2
    exact get_column_index_congr m.df fm2 m.fm mask2 m.highlight_mask name

/-- C8 witness: with one numeric extra filter in OR mode on a one-cell
table, the accepted first row indeed has a matching extra filter at the
looked-up column. -/
theorem C8_extra_filters_witness :
    ∃ f ∈ [FilterRule.num ⟨enc "A", ">=", 1⟩], ∃ ci,
      get_column_index ⟨⟨[enc "A"], [[Value.num 2]]⟩, ⟨[]⟩, none⟩ f.column = some ci
        ∧ f.matches (SourceModel.get_raw_value ⟨⟨[enc "A"], [[Value.num 2]]⟩, ⟨[]⟩, none⟩ 0 ci) = true :=
  (C8_extra_filters ⟨[], none, "all", [FilterRule.num ⟨enc "A", ">=", 1⟩], "any"⟩
      ⟨⟨[enc "A"], [[Value.num 2]]⟩, ⟨[]⟩, none⟩ 0 (by decide)).1 rfl (by decide)
